import Mathlib

/-!
Verification development for the go-fuzz-runner repository: a shallow
embedding of its corpus manager (internal/corpus/manager.go), target
discovery (internal/target/discovery.go), configuration (pkg/config/config.go)
and fuzzing engine (internal/runner/engine.go), together with theorems
settling the specification claims.

Modelling conventions:
* Strings are Lean `String`s; Go's `strings` helpers are re-implemented on
  the underlying character lists so that they compute in the kernel.
* Filesystem and subprocess effects are made explicit: directory contents
  are association lists from file name to byte content, and the outcome of
  each external effect (directory creation, file copy, harness exit status,
  harness output, minimization) is supplied by an environment record, so
  the control flow of the Go functions becomes a pure function of that
  environment.
* Durations are rationals (the Go code converts through float64 and
  time.Duration; the branching structure, which is what the claims are
  about, is unaffected).
-/

set_option maxRecDepth 8000

namespace GoFuzz

/-- Character-list test used to model Go's strings.HasPrefix:
`charsHasPre p s` is true when `p` is an initial segment of `s`. -/
def charsHasPre : List Char → List Char → Bool
  | [], _ => true
  | _ :: _, [] => false
  | p :: ps, c :: cs => p == c && charsHasPre ps cs

/-- Models Go's strings.HasPrefix(s, pat). -/
def strHasPre (s pat : String) : Bool :=
  charsHasPre pat.data s.data

/-- Models Go's strings.HasSuffix(s, pat). -/
def strHasSuffixB (s pat : String) : Bool :=
  charsHasPre pat.data.reverse s.data.reverse

/-- Models strings.ReplaceAll(s, "/", "_") from CorpusManager.GetTargetDir.
The pattern is the single character '/' (one byte, never part of a longer
UTF-8 sequence), so replacing every occurrence is a character map. -/
def replaceSlashes (s : String) : String :=
  String.mk (s.data.map (fun c => if c == '/' then '_' else c))

/-- Models filepath.Join for the already-clean relative segments the
corpus manager produces. -/
def filepathJoin (a b : String) : String :=
  a ++ "/" ++ b

/-- Association-list lookup, modelling a Go map read (`v, ok := m[k]`). -/
def lookupAssoc {α : Type} : List (String × α) → String → Option α
  | [], _ => none
  | (k, v) :: rest, key => if k == key then some v else lookupAssoc rest key

/-- Target (internal/target/discovery.go): one fuzzable entry point. -/
structure Target where
  Package : String
  Name : String
  FilePath : String
  FuncName : String
  Description : String
deriving DecidableEq, Repr

/-- MinimizationStrategy (internal/corpus/manager.go). -/
inductive MinimizationStrategy where
  | NoMinimization
  | CoverageMinimization
deriving DecidableEq, Repr

/-- CorpusManager state (internal/corpus/manager.go): base directory,
cache of resolved per-target directories, minimization strategy. -/
structure CorpusManager where
  BaseDir : String
  TargetDirs : List (String × String)
  Minimization : MinimizationStrategy
deriving DecidableEq, Repr

/-- NewCorpusManager: fresh manager with an empty directory cache.
(The `os.MkdirAll` on the base directory is an external effect whose
failure aborts construction; the constructed state is as below.) -/
def NewCorpusManager (baseDir : String) (minimization : MinimizationStrategy) :
    CorpusManager :=
  ⟨baseDir, [], minimization⟩

/-- The cache key `fmt.Sprintf("%s.%s", target.Package, target.Name)`
used by CorpusManager.GetTargetDir. -/
def targetKey (t : Target) : String :=
  t.Package ++ "." ++ t.Name

/-- The directory path GetTargetDir computes on a cache miss:
`filepath.Join(m.BaseDir, strings.ReplaceAll(target.Package, "/", "_"), target.Name)`. -/
def targetDirPath (baseDir : String) (t : Target) : String :=
  filepathJoin (filepathJoin baseDir (replaceSlashes t.Package)) t.Name

/-- Outcome of one GetTargetDir call: the returned path, the manager state
after the call, and whether the filesystem was touched (`os.MkdirAll`). -/
structure GetDirOutcome where
  dir : String
  manager : CorpusManager
  mkdirCalled : Bool
deriving DecidableEq, Repr

/-- CorpusManager.GetTargetDir: return the cached path if present;
otherwise compute the sanitized path, create the directory, cache it. -/
def GetTargetDir (m : CorpusManager) (t : Target) : GetDirOutcome :=
  match lookupAssoc m.TargetDirs (targetKey t) with
  | some dir => ⟨dir, m, false⟩
  | none =>
      let dir := targetDirPath m.BaseDir t
      ⟨dir, ⟨m.BaseDir, (targetKey t, dir) :: m.TargetDirs, m.Minimization⟩, true⟩

/-- A directory entry as returned by os.ReadDir: name, directory flag,
and (for files) byte content. -/
structure DirEntry where
  name : String
  isDir : Bool
  content : List Nat
deriving DecidableEq, Repr

/-- A directory's file contents: file name ↦ byte content. -/
abbrev FileMap := List (String × List Nat)

/-- The copy loop of CorpusManager.ImportNewCorpusEntries: walk the source
entries in order, skip directories, skip any entry whose name already
exists in the destination (`os.Stat` succeeds), otherwise copy it. -/
def importEntries (dst : FileMap) : List DirEntry → FileMap
  | [] => dst
  | e :: rest =>
      if e.isDir then importEntries dst rest
      else
        match lookupAssoc dst e.name with
        | some _ => importEntries dst rest
        | none => importEntries ((e.name, e.content) :: dst) rest

/-- Outcome of ImportNewCorpusEntries: resulting destination contents and
whether the minimization step was invoked. -/
structure ImportOutcome where
  files : FileMap
  minimizeInvoked : Bool

/-- CorpusManager.ImportNewCorpusEntries. `readDirOk` is the outcome of
`os.ReadDir(newEntriesDir)`; `entries` its listing; `minimizeOk` the exit
status of the external minimization subprocess and `minimizeEffect` its
(externally determined) effect on the directory, both relevant only when
the configured strategy is CoverageMinimization, in which case Minimize
is invoked as part of the import. File-copy I/O failures are environmental
and modelled as absent. -/
def ImportNewCorpusEntries (strategy : MinimizationStrategy) (dst : FileMap)
    (readDirOk : Bool) (entries : List DirEntry) (minimizeOk : Bool)
    (minimizeEffect : FileMap → FileMap) : Except String ImportOutcome :=
  if readDirOk = false then
    Except.error "failed to read new entries directory"
  else
    let copied := importEntries dst entries
    if strategy == MinimizationStrategy.CoverageMinimization then
      if minimizeOk then Except.ok ⟨minimizeEffect copied, true⟩
      else Except.error "corpus minimization failed"
    else Except.ok ⟨copied, false⟩

/-- Config (pkg/config/config.go). Durations are rationals. -/
structure Config where
  Packages : List String
  RootDir : String
  CorpusDir : String
  FuzzTime : ℚ
  Parallelism : Nat
  HarnessDetection : Bool
  TimeAllocation : List (String × ℚ)
  ReportDir : String
  ChangedOnly : Bool
  GitRef : String

/-- config.Default, with FuzzTime = 5 minutes expressed in seconds. -/
def ConfigDefault : Config :=
  ⟨["./..."], ".", "./fuzz-corpus", 300, 4, true, [("default", 1)],
    "./fuzz-reports", false, "HEAD~1"⟩

/-- FuzzEngine.getTargetDuration: a package-specific allocation fraction
if present, else the "default" fraction — where a missing "default" key
reads as the Go map zero value 0. -/
def getTargetDuration (cfg : Config) (t : Target) : ℚ :=
  match lookupAssoc cfg.TimeAllocation t.Package with
  | some allocation => cfg.FuzzTime * allocation
  | none => cfg.FuzzTime * ((lookupAssoc cfg.TimeAllocation "default").getD 0)

/-- Result (internal/runner/engine.go): outcome of one fuzz run. -/
structure Result where
  TargetRef : Target
  Duration : ℚ
  Success : Bool
  ErrorMessage : String
  CrashInputs : List String
  NewCorpusItems : Nat
  Coverage : ℚ

/-- FuzzEngine (internal/runner/engine.go). -/
structure FuzzEngine where
  Cfg : Config
  Targets : List Target
  Manager : CorpusManager
  Results : List Result

/-- NewFuzzEngine: builds the engine, creating the corpus manager with the
CoverageMinimization strategy (hard-coded at this call site). -/
def NewFuzzEngine (cfg : Config) (targets : List Target) : FuzzEngine :=
  ⟨cfg, targets, NewCorpusManager cfg.CorpusDir
      MinimizationStrategy.CoverageMinimization, []⟩

/-- External-world outcomes of one RunTarget invocation: every filesystem
and subprocess effect the Go function performs, in control-flow order. -/
structure RunEnv where
  mkTempOk : Bool
  mkCorpusDirOk : Bool
  copyCorpusOk : Bool
  mkCrashersDirOk : Bool
  harnessExitOk : Bool
  harnessOutput : String
  elapsed : ℚ
  crashersGlobOk : Bool
  crasherEntries : List String
  persistentFiles : FileMap
  readDirOk : Bool
  tempCorpusEntries : List DirEntry
  minimizeOk : Bool
  minimizeEffect : FileMap → FileMap

/-- FuzzEngine.RunTarget: stage the workspace, run the harness with the
budget from getTargetDuration, classify the exit status, harvest crashers
(dropping ".output" sidecars), import the workspace corpus back, count the
workspace corpus entries. Orchestration failures return Except.error; a
failing harness returns Except.ok with Success = false. -/
def RunTarget (e : FuzzEngine) (env : RunEnv) (t : Target) : Except String Result :=
  if env.mkTempOk = false then
    Except.error "failed to create temp directory"
  else if env.mkCorpusDirOk = false then
    Except.error "failed to create temp corpus directory"
  else if env.copyCorpusOk = false then
    Except.error "failed to copy corpus"
  else if env.mkCrashersDirOk = false then
    Except.error "failed to create crashers directory"
  else
    let success := env.harnessExitOk
    let errorMessage := if env.harnessExitOk then "" else env.harnessOutput
    let crashInputs :=
      if env.harnessExitOk then []
      else if env.crashersGlobOk then
        env.crasherEntries.filter (fun c => !(strHasSuffixB c ".output"))
      else []
    match ImportNewCorpusEntries e.Manager.Minimization env.persistentFiles
        env.readDirOk env.tempCorpusEntries env.minimizeOk env.minimizeEffect with
    | Except.error msg => Except.error ("failed to import new corpus entries: " ++ msg)
    | Except.ok _ =>
        Except.ok ⟨t, env.elapsed, success, errorMessage, crashInputs,
          env.tempCorpusEntries.length, 0⟩

/-- FuzzEngine.RunAll: run each target in order with the environment the
external world supplies for that run; append each Result; the first
RunTarget error aborts the remaining iteration and is returned wrapped
with the target's key. Returns the appended results and the error, if any. -/
def RunAll (e : FuzzEngine) : List (Target × RunEnv) → List Result × Option String
  | [] => ([], none)
  | (t, env) :: rest =>
      match RunTarget e env t with
      | Except.error msg =>
          ([], some ("failed to run target " ++ targetKey t ++ ": " ++ msg))
      | Except.ok r =>
          let p := RunAll e rest
          (r :: p.1, p.2)

/-- truncate (cmd/fuzzctl/run.go): cap a string at maxLen, replacing the
tail with "..." when it is longer. -/
def truncate (s : String) (maxLen : Nat) : String :=
  if s.length ≤ maxLen then s
  else String.mk (s.data.take (maxLen - 3)) ++ "..."

/-- The run command's display of a failing Result's diagnostic text
(cmd/fuzzctl/run.go): `truncate(result.ErrorMessage, 100)`. -/
def displayedErrorMessage (r : Result) : String :=
  truncate r.ErrorMessage 100

/-- Whether every orchestration effect of one RunTarget invocation
succeeds: workspace creation, corpus staging, crashers-directory creation,
and the corpus import (including the minimization subprocess when the
strategy triggers it). -/
def orchOk (strategy : MinimizationStrategy) (env : RunEnv) : Bool :=
  env.mkTempOk && env.mkCorpusDirOk && env.copyCorpusOk &&
    env.mkCrashersDirOk && env.readDirOk &&
    (!(strategy == MinimizationStrategy.CoverageMinimization) || env.minimizeOk)

/-- Go type expressions, as deep as hasFuzzParameter inspects them:
identifiers, selector expressions, pointer types, anything else. -/
inductive TypeExpr where
  | ident (name : String)
  | selector (x : TypeExpr) (sel : String)
  | star (x : TypeExpr)
  | other
deriving DecidableEq, Repr

/-- A parsed top-level function declaration (ast.FuncDecl), as deep as
discovery inspects it: name, parameter field list (`none` models a nil
Params.List), and the leading doc comment's text when present. -/
structure FuncDecl where
  name : String
  params : Option (List TypeExpr)
  doc : Option String
deriving DecidableEq, Repr

/-- A top-level declaration of a parsed file: a function declaration or
any other declaration (skipped by discovery). -/
inductive Decl where
  | funcDecl (f : FuncDecl)
  | otherDecl
deriving DecidableEq, Repr

/-- hasFuzzParameter (internal/target/discovery.go): exactly one parameter
field whose type is a star expression over selector `testing.F`. -/
def hasFuzzParameter (f : FuncDecl) : Bool :=
  match f.params with
  | some [TypeExpr.star (TypeExpr.selector (TypeExpr.ident i) sel)] =>
      i == "testing" && sel == "F"
  | _ => false

/-- The Target that findTargetsInPackage builds from an eligible function
declaration: Name and FuncName are the function's name, Description the
doc text when present (else the zero value ""). -/
def mkTarget (pkg testFile : String) (f : FuncDecl) : Target :=
  ⟨pkg, f.name, testFile, f.name, f.doc.getD ""⟩

/-- The declaration scan of findTargetsInPackage over one parsed test
file: emit a Target for every function declaration whose name has the
"Fuzz" prefix and which passes hasFuzzParameter, in declaration order. -/
def findTargetsInFile (pkg testFile : String) : List Decl → List Target
  | [] => []
  | Decl.otherDecl :: rest => findTargetsInFile pkg testFile rest
  | Decl.funcDecl f :: rest =>
      if strHasPre f.name "Fuzz" && hasFuzzParameter f then
        mkTarget pkg testFile f :: findTargetsInFile pkg testFile rest
      else findTargetsInFile pkg testFile rest

/-- A minimal target fixture: package and function name, empty metadata. -/
def simpleTarget (pkg nm : String) : Target :=
  ⟨pkg, nm, "", nm, ""⟩

/-- A configuration fixture with a given budget and time-allocation map. -/
def cfgWithAlloc (T : ℚ) (alloc : List (String × ℚ)) : Config :=
  ⟨["./..."], ".", "./fuzz-corpus", T, 4, true, alloc, "./fuzz-reports",
    false, "HEAD~1"⟩

/-- A run environment in which every orchestration effect succeeds, with a
chosen harness exit status, harness output and crashers listing. -/
def envAllOk (exitOk : Bool) (output : String) (crashers : List String) : RunEnv :=
  ⟨true, true, true, true, exitOk, output, 0, true, crashers, [], true, [], true, id⟩

/-- A run environment whose scratch-workspace creation fails. -/
def envBadTemp : RunEnv :=
  ⟨false, true, true, true, true, "", 0, true, [], [], true, [], true, id⟩

/- ### Lemmas about the corpus import copy loop -/

theorem lookupAssoc_cons {α : Type} (k : String) (v : α) (rest : List (String × α))
    (key : String) :
    lookupAssoc ((k, v) :: rest) key = if k == key then some v else lookupAssoc rest key :=
  rfl

theorem lookup_importEntries_preserved (src : List DirEntry) :
    ∀ (dst : FileMap) (name : String) (c : List Nat),
      lookupAssoc dst name = some c →
      lookupAssoc (importEntries dst src) name = some c := by
  induction src with
  | nil => intro dst name c h; simpa [importEntries] using h
  | cons e rest ih =>
      intro dst name c h
      cases hd : e.isDir with
      | true => simpa [importEntries, hd] using ih dst name c h
      | false =>
          cases hl : lookupAssoc dst e.name with
          | some v =>
              simpa [importEntries, hd, hl] using ih dst name c h
          | none =>
              have hne : (e.name == name) = false := by
                rcases hq : e.name == name with _ | _
                · rfl
                · have : e.name = name := by
                    exact beq_iff_eq.mp hq
                  rw [this, h] at hl
                  cases hl
              have hcons : lookupAssoc ((e.name, e.content) :: dst) name = some c := by
                rw [lookupAssoc_cons, hne]
                simpa using h
              simpa [importEntries, hd, hl] using
                ih ((e.name, e.content) :: dst) name c hcons

theorem lookup_importEntries_isSome (src : List DirEntry) (dst : FileMap)
    (name : String) (h : (lookupAssoc dst name).isSome = true) :
    (lookupAssoc (importEntries dst src) name).isSome = true := by
  cases hl : lookupAssoc dst name with
  | none => rw [hl] at h; cases h
  | some c =>
      rw [lookup_importEntries_preserved src dst name c hl]
      rfl

theorem mem_lookup_importEntries (src : List DirEntry) :
    ∀ (dst : FileMap) (e : DirEntry), e ∈ src → e.isDir = false →
      (lookupAssoc (importEntries dst src) e.name).isSome = true := by
  induction src with
  | nil => intro dst e he _; cases he
  | cons a rest ih =>
      intro dst e he hd
      rcases List.mem_cons.mp he with rfl | hmem
      · cases hl : lookupAssoc dst e.name with
        | some v =>
            simpa [importEntries, hd, hl] using
              lookup_importEntries_isSome rest dst e.name (by rw [hl]; rfl)
        | none =>
            have hpresent :
                (lookupAssoc ((e.name, e.content) :: dst) e.name).isSome = true := by
              rw [lookupAssoc_cons]
              simp
            simpa [importEntries, hd, hl] using
              lookup_importEntries_isSome rest ((e.name, e.content) :: dst) e.name hpresent
      · cases hda : a.isDir with
        | true => simpa [importEntries, hda] using ih dst e hmem hd
        | false =>
            cases hl : lookupAssoc dst a.name with
            | some v => simpa [importEntries, hda, hl] using ih dst e hmem hd
            | none =>
                simpa [importEntries, hda, hl] using
                  ih ((a.name, a.content) :: dst) e hmem hd

theorem importEntries_eq_of_all_present (src : List DirEntry) :
    ∀ dst : FileMap,
      (∀ e ∈ src, e.isDir = false → (lookupAssoc dst e.name).isSome = true) →
      importEntries dst src = dst := by
  induction src with
  | nil => intro dst _; rfl
  | cons a rest ih =>
      intro dst h
      have hrest : ∀ e ∈ rest, e.isDir = false → (lookupAssoc dst e.name).isSome = true :=
        fun e he hde => h e (List.mem_cons_of_mem a he) hde
      cases hd : a.isDir with
      | true => simpa [importEntries, hd] using ih dst hrest
      | false =>
          have ha := h a (List.mem_cons_self a rest) hd
          cases hl : lookupAssoc dst a.name with
          | none => rw [hl] at ha; cases ha
          | some v => simpa [importEntries, hd, hl] using ih dst hrest

theorem importEntries_idem (dst : FileMap) (src : List DirEntry) :
    importEntries (importEntries dst src) src = importEntries dst src :=
  importEntries_eq_of_all_present src (importEntries dst src)
    (fun e he hd => mem_lookup_importEntries src dst e he hd)

theorem length_le_importEntries (src : List DirEntry) :
    ∀ dst : FileMap, dst.length ≤ (importEntries dst src).length := by
  induction src with
  | nil => intro dst; exact le_refl _
  | cons a rest ih =>
      intro dst
      cases hd : a.isDir with
      | true => simpa [importEntries, hd] using ih dst
      | false =>
          cases hl : lookupAssoc dst a.name with
          | some v => simpa [importEntries, hd, hl] using ih dst
          | none =>
              have h1 : dst.length ≤ ((a.name, a.content) :: dst).length := by
                simp
              have h2 := ih ((a.name, a.content) :: dst)
              simpa [importEntries, hd, hl] using le_trans h1 h2

theorem ImportNewCorpusEntries_ok (s : MinimizationStrategy) (dst : FileMap)
    (entries : List DirEntry) (mok : Bool) (eff : FileMap → FileMap)
    (h : (!(s == MinimizationStrategy.CoverageMinimization) || mok) = true) :
    ∃ out, ImportNewCorpusEntries s dst true entries mok eff = Except.ok out := by
  cases s <;> cases mok <;> simp_all [ImportNewCorpusEntries]

theorem ImportNewCorpusEntries_err (s : MinimizationStrategy) (dst : FileMap)
    (rok : Bool) (entries : List DirEntry) (mok : Bool) (eff : FileMap → FileMap)
    (h : (rok && (!(s == MinimizationStrategy.CoverageMinimization) || mok)) = false) :
    ∃ msg, ImportNewCorpusEntries s dst rok entries mok eff = Except.error msg := by
  cases s <;> cases mok <;> cases rok <;> simp_all [ImportNewCorpusEntries]

/- ### Lemmas about RunTarget's control flow -/

/-- The Result RunTarget produces when every orchestration effect succeeds. -/
def expectedResult (env : RunEnv) (t : Target) : Result :=
  ⟨t, env.elapsed, env.harnessExitOk,
    (if env.harnessExitOk then "" else env.harnessOutput),
    (if env.harnessExitOk then []
      else if env.crashersGlobOk then
        env.crasherEntries.filter (fun c => !(strHasSuffixB c ".output"))
      else []),
    env.tempCorpusEntries.length, 0⟩

theorem RunTarget_ok_of_orchOk (e : FuzzEngine) (env : RunEnv) (t : Target)
    (h : orchOk e.Manager.Minimization env = true) :
    RunTarget e env t = Except.ok (expectedResult env t) := by
  simp only [orchOk, Bool.and_eq_true] at h
  obtain ⟨⟨⟨⟨⟨h1, h2⟩, h3⟩, h4⟩, h5⟩, h6⟩ := h
  obtain ⟨out, himp⟩ := ImportNewCorpusEntries_ok e.Manager.Minimization
    env.persistentFiles env.tempCorpusEntries env.minimizeOk env.minimizeEffect h6
  rw [← h5] at himp
  simp [RunTarget, h1, h2, h3, h4, himp, expectedResult]

theorem RunTarget_err_of_orchBad (e : FuzzEngine) (env : RunEnv) (t : Target)
    (h : orchOk e.Manager.Minimization env = false) :
    ∃ msg, RunTarget e env t = Except.error msg := by
  cases h1 : env.mkTempOk with
  | false => exact ⟨"failed to create temp directory", by simp [RunTarget, h1]⟩
  | true =>
    cases h2 : env.mkCorpusDirOk with
    | false => exact ⟨"failed to create temp corpus directory", by simp [RunTarget, h1, h2]⟩
    | true =>
      cases h3 : env.copyCorpusOk with
      | false => exact ⟨"failed to copy corpus", by simp [RunTarget, h1, h2, h3]⟩
      | true =>
        cases h4 : env.mkCrashersDirOk with
        | false =>
            exact ⟨"failed to create crashers directory", by simp [RunTarget, h1, h2, h3, h4]⟩
        | true =>
          have h56 : (env.readDirOk &&
              (!(e.Manager.Minimization == MinimizationStrategy.CoverageMinimization) ||
                env.minimizeOk)) = false := by
            simp only [orchOk, h1, h2, h3, h4, Bool.true_and] at h
            exact h
          obtain ⟨msg, himp⟩ := ImportNewCorpusEntries_err e.Manager.Minimization
            env.persistentFiles env.readDirOk env.tempCorpusEntries env.minimizeOk
            env.minimizeEffect h56
          exact ⟨"failed to import new corpus entries: " ++ msg,
            by simp [RunTarget, h1, h2, h3, h4, himp]⟩

theorem RunTarget_ok_inv (e : FuzzEngine) (env : RunEnv) (t : Target) (r : Result)
    (h : RunTarget e env t = Except.ok r) : r = expectedResult env t := by
  cases horch : orchOk e.Manager.Minimization env with
  | false =>
      obtain ⟨msg, herr⟩ := RunTarget_err_of_orchBad e env t horch
      rw [herr] at h
      cases h
  | true =>
      rw [RunTarget_ok_of_orchOk e env t horch] at h
      exact (Except.ok.inj h).symm

/-- C2: the per-target time budget is globalBudget × allocation[package]
when the package key is present, else globalBudget × allocation["default"]
when that key is present, else 0; with budget T and allocation
pkgA ↦ 1/2, default ↦ 1/10, a pkgA target gets T·(1/2), a target in an
absent package gets T·(1/10), and with neither key the budget is 0. -/
theorem c2_time_budget (cfg : Config) (t : Target) (T : ℚ) :
    (∀ a : ℚ, lookupAssoc cfg.TimeAllocation t.Package = some a →
      getTargetDuration cfg t = cfg.FuzzTime * a) ∧
    (∀ d : ℚ, lookupAssoc cfg.TimeAllocation t.Package = none →
      lookupAssoc cfg.TimeAllocation "default" = some d →
      getTargetDuration cfg t = cfg.FuzzTime * d) ∧
    (lookupAssoc cfg.TimeAllocation t.Package = none →
      lookupAssoc cfg.TimeAllocation "default" = none →
      getTargetDuration cfg t = 0) ∧
    getTargetDuration (cfgWithAlloc T [("pkgA", 1/2), ("default", 1/10)])
      (simpleTarget "pkgA" "FuzzX") = T * (1/2) ∧
    getTargetDuration (cfgWithAlloc T [("pkgA", 1/2), ("default", 1/10)])
      (simpleTarget "pkgB" "FuzzX") = T * (1/10) ∧
    getTargetDuration (cfgWithAlloc T []) (simpleTarget "pkgB" "FuzzX") = 0 := by
  refine ⟨?_, ?_, ?_, ?_, ?_, ?_⟩
  · intro a ha
    simp [getTargetDuration, ha]
  · intro d hp hd
    simp [getTargetDuration, hp, hd]
  · intro hp hd
    simp [getTargetDuration, hp, hd]
  · simp [getTargetDuration, cfgWithAlloc, simpleTarget, lookupAssoc]
  · simp [getTargetDuration, cfgWithAlloc, simpleTarget, lookupAssoc]
  · simp [getTargetDuration, cfgWithAlloc, simpleTarget, lookupAssoc]

/-- Witness for C2 at concrete inputs. -/
theorem c2_time_budget_witness :
    getTargetDuration (cfgWithAlloc 10 [("pkgA", 1/2), ("default", 1/10)])
      (simpleTarget "pkgA" "FuzzX") = 10 * (1/2) :=
  (c2_time_budget (cfgWithAlloc 10 [("pkgA", 1/2), ("default", 1/10)])
    (simpleTarget "pkgA" "FuzzX") 10).2.2.2.1

/-- C5: offering a second, distinct byte content under an already present
filename leaves the first content untouched in the corpus, the second
content is discarded, and the import reports success. -/
theorem c5_name_collision (dst : FileMap) (entries : List DirEntry)
    (name : String) (c1 c2 : List Nat) (eff : FileMap → FileMap)
    (hfirst : lookupAssoc dst name = some c1)
    (_hoffer : (⟨name, false, c2⟩ : DirEntry) ∈ entries)
    (_hdistinct : c2 ≠ c1) :
    lookupAssoc (importEntries dst entries) name = some c1 ∧
    ∃ out, ImportNewCorpusEntries MinimizationStrategy.NoMinimization dst true
        entries true eff = Except.ok out ∧
      lookupAssoc out.files name = some c1 := by
  refine ⟨lookup_importEntries_preserved entries dst name c1 hfirst,
    ⟨importEntries dst entries, false⟩, ?_, ?_⟩
  · simp [ImportNewCorpusEntries]
  · exact lookup_importEntries_preserved entries dst name c1 hfirst

/-- Witness for C5 at concrete inputs. -/
theorem c5_name_collision_witness :
    lookupAssoc (importEntries [("k", [1])] [⟨"k", false, [2]⟩]) "k" = some [1] ∧
    ∃ out, ImportNewCorpusEntries MinimizationStrategy.NoMinimization [("k", [1])] true
        [⟨"k", false, [2]⟩] true id = Except.ok out ∧
      lookupAssoc out.files "k" = some [1] :=
  c5_name_collision [("k", [1])] [⟨"k", false, [2]⟩] "k" [1] [2] id rfl
    (List.mem_singleton.mpr rfl) (by decide)

/-- C6: importing the same source directory twice is idempotent — the file
set after the second import equals the file set after the first, and the
second import reports success. -/
theorem c6_import_idempotent (dst : FileMap) (entries : List DirEntry)
    (eff : FileMap → FileMap) :
    importEntries (importEntries dst entries) entries = importEntries dst entries ∧
    ImportNewCorpusEntries MinimizationStrategy.NoMinimization
        (importEntries dst entries) true entries true eff
      = Except.ok ⟨importEntries dst entries, false⟩ := by
  refine ⟨importEntries_idem dst entries, ?_⟩
  simp [ImportNewCorpusEntries, importEntries_idem]

/-- C7: resolving a target's directory is idempotent and deterministic —
a second call with the same (package, name) returns the identical path,
leaves the manager unchanged, and does not touch the filesystem; the
directory is created only by a first (uncached) call. -/
theorem c7_getTargetDir_idempotent (m : CorpusManager) (t1 t2 : Target)
    (hp : t1.Package = t2.Package) (hn : t1.Name = t2.Name) :
    (GetTargetDir (GetTargetDir m t1).manager t2).dir = (GetTargetDir m t1).dir ∧
    (GetTargetDir (GetTargetDir m t1).manager t2).manager = (GetTargetDir m t1).manager ∧
    (GetTargetDir (GetTargetDir m t1).manager t2).mkdirCalled = false ∧
    (lookupAssoc m.TargetDirs (targetKey t1) = none →
      (GetTargetDir m t1).mkdirCalled = true ∧
      (GetTargetDir m t1).dir = targetDirPath m.BaseDir t1) ∧
    (∀ dir, lookupAssoc m.TargetDirs (targetKey t1) = some dir →
      (GetTargetDir m t1).mkdirCalled = false ∧ (GetTargetDir m t1).dir = dir ∧
      (GetTargetDir m t1).manager = m) := by
  have hkey : targetKey t2 = targetKey t1 := by
    simp [targetKey, hp, hn]
  cases hl : lookupAssoc m.TargetDirs (targetKey t1) with
  | some dir =>
      refine ⟨?_, ?_, ?_, ?_, ?_⟩ <;>
        simp [GetTargetDir, hkey, hl]
  | none =>
      have hcons : lookupAssoc
          ((targetKey t1, targetDirPath m.BaseDir t1) :: m.TargetDirs)
          (targetKey t1) = some (targetDirPath m.BaseDir t1) := by
        rw [lookupAssoc_cons]
        simp
      refine ⟨?_, ?_, ?_, ?_, ?_⟩ <;>
        simp [GetTargetDir, hkey, hl, hcons]

/-- Witness for C7 at concrete inputs. -/
theorem c7_getTargetDir_idempotent_witness :
    (GetTargetDir (GetTargetDir
        (NewCorpusManager "./fuzz-corpus" MinimizationStrategy.NoMinimization)
        (simpleTarget "pkg/codec" "FuzzDecode")).manager
      (simpleTarget "pkg/codec" "FuzzDecode")).dir =
    (GetTargetDir (NewCorpusManager "./fuzz-corpus" MinimizationStrategy.NoMinimization)
      (simpleTarget "pkg/codec" "FuzzDecode")).dir :=
  (c7_getTargetDir_idempotent
    (NewCorpusManager "./fuzz-corpus" MinimizationStrategy.NoMinimization)
    (simpleTarget "pkg/codec" "FuzzDecode") (simpleTarget "pkg/codec" "FuzzDecode")
    rfl rfl).1

/-- C10: directory resolution is not injective — the packages "a/b" and
"a_b" are distinct, yet with the same target name they resolve to the
same corpus directory, because sanitization replaces "/" with "_". -/
theorem c10_dir_not_injective :
    (simpleTarget "a/b" "FuzzX").Package ≠ (simpleTarget "a_b" "FuzzX").Package ∧
    targetDirPath "./fuzz-corpus" (simpleTarget "a/b" "FuzzX")
      = targetDirPath "./fuzz-corpus" (simpleTarget "a_b" "FuzzX") ∧
    (GetTargetDir (NewCorpusManager "./fuzz-corpus" MinimizationStrategy.NoMinimization)
        (simpleTarget "a/b" "FuzzX")).dir =
      (GetTargetDir (NewCorpusManager "./fuzz-corpus" MinimizationStrategy.NoMinimization)
        (simpleTarget "a_b" "FuzzX")).dir := by
  refine ⟨by decide, by decide, by decide⟩

/-- C1: a non-zero harness exit is not an engine error — RunTarget returns
a Result with Success = false and RunAll appends it and continues — while
an orchestration failure (workspace creation, corpus copy, corpus import)
makes RunTarget return an error, in which case RunAll appends no Result
for that target, aborts the remaining iteration and propagates the error. -/
theorem c1_error_tiers (e : FuzzEngine) (env : RunEnv) (t : Target)
    (rest : List (Target × RunEnv)) :
    (orchOk e.Manager.Minimization env = true → env.harnessExitOk = false →
      ∃ r, RunTarget e env t = Except.ok r ∧ r.Success = false ∧
        RunAll e ((t, env) :: rest) = (r :: (RunAll e rest).1, (RunAll e rest).2)) ∧
    (orchOk e.Manager.Minimization env = false →
      ∃ msg, RunTarget e env t = Except.error msg ∧
        RunAll e ((t, env) :: rest) =
          ([], some ("failed to run target " ++ targetKey t ++ ": " ++ msg))) := by
  constructor
  · intro horch hfail
    refine ⟨expectedResult env t, RunTarget_ok_of_orchOk e env t horch, ?_, ?_⟩
    · simp [expectedResult, hfail]
    · simp [RunAll, RunTarget_ok_of_orchOk e env t horch]
  · intro horch
    obtain ⟨msg, herr⟩ := RunTarget_err_of_orchBad e env t horch
    exact ⟨msg, herr, by simp [RunAll, herr]⟩

/-- Witness for C1 at concrete inputs. -/
theorem c1_error_tiers_witness :
    ∃ r, RunTarget (NewFuzzEngine ConfigDefault []) (envAllOk false "boom" [])
        (simpleTarget "p" "FuzzF") = Except.ok r ∧ r.Success = false ∧
      RunAll (NewFuzzEngine ConfigDefault [])
          [(simpleTarget "p" "FuzzF", envAllOk false "boom" [])]
        = (r :: (RunAll (NewFuzzEngine ConfigDefault []) []).1,
            (RunAll (NewFuzzEngine ConfigDefault []) []).2) :=
  (c1_error_tiers (NewFuzzEngine ConfigDefault []) (envAllOk false "boom" [])
    (simpleTarget "p" "FuzzF") []).1 rfl rfl

/-- C8: for a failing run the crash-input list is exactly the crashers
listing without the ".output" sidecars; on crashers c1, c1.output, c2 the
reported inputs are c1 and c2, and in the end-to-end scenario with
crashers abc123 and abc123.output the Result has Success = false and
CrashInputs = [abc123] of length 1. -/
theorem c8_crash_inputs (e : FuzzEngine) (env : RunEnv) (t : Target) (r : Result)
    (h : RunTarget e env t = Except.ok r) (hfail : env.harnessExitOk = false)
    (hglob : env.crashersGlobOk = true) :
    r.Success = false ∧
    r.CrashInputs = env.crasherEntries.filter (fun c => !(strHasSuffixB c ".output")) ∧
    ["c1", "c1.output", "c2"].filter (fun c => !(strHasSuffixB c ".output"))
      = ["c1", "c2"] ∧
    (RunTarget (NewFuzzEngine ConfigDefault [])
        (envAllOk false "boom" ["abc123", "abc123.output"])
        (simpleTarget "pkg/codec" "FuzzDecode")).map (fun s => (s.Success, s.CrashInputs))
      = Except.ok (false, ["abc123"]) ∧
    ["abc123"].length = 1 := by
  have hr := RunTarget_ok_inv e env t r h
  subst hr
  exact ⟨by simp [expectedResult, hfail], by simp [expectedResult, hfail, hglob],
    by decide, rfl, rfl⟩

/-- Witness for C8 at concrete inputs. -/
theorem c8_crash_inputs_witness :
    (expectedResult (envAllOk false "boom" ["abc123", "abc123.output"])
        (simpleTarget "pkg/codec" "FuzzDecode")).Success = false ∧
    (expectedResult (envAllOk false "boom" ["abc123", "abc123.output"])
        (simpleTarget "pkg/codec" "FuzzDecode")).CrashInputs
      = (envAllOk false "boom" ["abc123", "abc123.output"]).crasherEntries.filter
          (fun c => !(strHasSuffixB c ".output")) ∧
    ["c1", "c1.output", "c2"].filter (fun c => !(strHasSuffixB c ".output"))
      = ["c1", "c2"] ∧
    (RunTarget (NewFuzzEngine ConfigDefault [])
        (envAllOk false "boom" ["abc123", "abc123.output"])
        (simpleTarget "pkg/codec" "FuzzDecode")).map (fun s => (s.Success, s.CrashInputs))
      = Except.ok (false, ["abc123"]) ∧
    ["abc123"].length = 1 :=
  c8_crash_inputs (NewFuzzEngine ConfigDefault [])
    (envAllOk false "boom" ["abc123", "abc123.output"])
    (simpleTarget "pkg/codec" "FuzzDecode")
    (expectedResult (envAllOk false "boom" ["abc123", "abc123.output"])
      (simpleTarget "pkg/codec" "FuzzDecode")) rfl rfl rfl

/-- C9: discovery emits a Target exactly for the top-level function
declarations whose name has the "Fuzz" prefix and whose single parameter
has type *testing.F, attaching the leading doc text as description; a file
with FuzzFoo(f *testing.F) (doc "finds foo bugs") and NotAFuzzFunc(x int)
yields exactly one Target, with that description. -/
theorem c9_discovery (pkg tf : String) (decls : List Decl) (t : Target) :
    (t ∈ findTargetsInFile pkg tf decls ↔
      ∃ f : FuncDecl, Decl.funcDecl f ∈ decls ∧
        strHasPre f.name "Fuzz" = true ∧ hasFuzzParameter f = true ∧
        t = mkTarget pkg tf f) ∧
    findTargetsInFile "p" "p_test.go"
        [Decl.funcDecl ⟨"FuzzFoo",
            some [TypeExpr.star (TypeExpr.selector (TypeExpr.ident "testing") "F")],
            some "finds foo bugs"⟩,
          Decl.funcDecl ⟨"NotAFuzzFunc", some [TypeExpr.ident "int"], none⟩]
      = [⟨"p", "FuzzFoo", "p_test.go", "FuzzFoo", "finds foo bugs"⟩] := by
  constructor
  · induction decls with
    | nil => simp [findTargetsInFile]
    | cons d rest ih =>
        cases d with
        | otherDecl => simp [findTargetsInFile, ih]
        | funcDecl f =>
            cases hcond : (strHasPre f.name "Fuzz" && hasFuzzParameter f) with
            | true =>
                rw [Bool.and_eq_true] at hcond
                constructor
                · intro ht
                  rcases List.mem_cons.mp (by
                      simpa [findTargetsInFile, hcond.1, hcond.2] using ht) with
                    rfl | htail
                  · exact ⟨f, List.mem_cons_self (Decl.funcDecl f) rest, hcond.1, hcond.2, rfl⟩
                  · obtain ⟨g, hg, h1, h2, h3⟩ := ih.mp htail
                    exact ⟨g, List.mem_cons_of_mem _ hg, h1, h2, h3⟩
                · rintro ⟨g, hgmem, h1, h2, rfl⟩
                  rcases List.mem_cons.mp hgmem with heq | hgr
                  · cases heq
                    simp [findTargetsInFile, hcond.1, hcond.2]
                  · have : mkTarget pkg tf g ∈ findTargetsInFile pkg tf rest :=
                      ih.mpr ⟨g, hgr, h1, h2, rfl⟩
                    simp [findTargetsInFile, hcond.1, hcond.2]
                    exact Or.inr this
            | false =>
                constructor
                · intro ht
                  obtain ⟨g, hg, h1, h2, h3⟩ := ih.mp (by
                    simpa [findTargetsInFile, hcond] using ht)
                  exact ⟨g, List.mem_cons_of_mem _ hg, h1, h2, h3⟩
                · rintro ⟨g, hgmem, h1, h2, rfl⟩
                  rcases List.mem_cons.mp hgmem with heq | hgr
                  · cases heq
                    rw [h1, h2] at hcond
                    cases hcond
                  · have : mkTarget pkg tf g ∈ findTargetsInFile pkg tf rest :=
                      ih.mpr ⟨g, hgr, h1, h2, rfl⟩
                    simpa [findTargetsInFile, hcond] using this
  · decide

/-- Counterexample to C4 as stated: the Result stores the harness output
untruncated — with a 120-character output, the stored ErrorMessage has
length 120, exceeding the 100-character cap the claim asserts for the
stored text. -/
theorem c4_counterexample :
    (RunTarget (NewFuzzEngine ConfigDefault [])
        (envAllOk false (String.mk (List.replicate 120 'a')) [])
        (simpleTarget "p" "FuzzF")).map (fun r => r.ErrorMessage.length)
      = Except.ok 120 ∧
    ¬(120 ≤ 100) := by
  exact ⟨rfl, by decide⟩

/-- C4 amended: for a failing run the full harness output is stored on the
Result's ErrorMessage; truncation to the fixed maximum length 100 happens
only when the run command displays the message, and that displayed text
never exceeds 100 characters. -/
theorem c4_truncated_display (e : FuzzEngine) (env : RunEnv) (t : Target)
    (r : Result) (h : RunTarget e env t = Except.ok r)
    (hfail : env.harnessExitOk = false) :
    r.ErrorMessage = env.harnessOutput ∧
    displayedErrorMessage r = truncate env.harnessOutput 100 ∧
    (∀ s : String, (truncate s 100).length ≤ 100) := by
  have hr := RunTarget_ok_inv e env t r h
  subst hr
  refine ⟨by simp [expectedResult, hfail], ?_, ?_⟩
  · simp [displayedErrorMessage, expectedResult, hfail]
  · intro s
    by_cases hlen : s.length ≤ 100
    · simp [truncate, hlen]
    · have hdata : (String.mk (s.data.take (100 - 3)) ++ "...").length
          = (s.data.take (100 - 3)).length + 3 := by
        rw [String.length_append]
        rfl
      have htake : (s.data.take (100 - 3)).length ≤ 97 := by
        simp
      simp only [truncate, hlen, if_false]
      omega

/-- Witness for the amended C4 at concrete inputs. -/
theorem c4_truncated_display_witness :
    (expectedResult (envAllOk false "boom" []) (simpleTarget "p" "FuzzF")).ErrorMessage
      = (envAllOk false "boom" []).harnessOutput ∧
    displayedErrorMessage (expectedResult (envAllOk false "boom" [])
        (simpleTarget "p" "FuzzF"))
      = truncate (envAllOk false "boom" []).harnessOutput 100 ∧
    (∀ s : String, (truncate s 100).length ≤ 100) :=
  c4_truncated_display (NewFuzzEngine ConfigDefault []) (envAllOk false "boom" [])
    (simpleTarget "p" "FuzzF")
    (expectedResult (envAllOk false "boom" []) (simpleTarget "p" "FuzzF")) rfl rfl

/-- Counterexample to C3 as stated: minimization is not opt-in on the
engine path — NewFuzzEngine hard-codes the CoverageMinimization strategy
(the Config structure offers no minimization setting to opt in or out
with), so an engine-driven import invokes the corpus-shrinking
minimization step on every run, here already under the default
configuration on an empty import. -/
theorem c3_counterexample :
    (NewFuzzEngine ConfigDefault []).Manager.Minimization
      = MinimizationStrategy.CoverageMinimization ∧
    (ImportNewCorpusEntries (NewFuzzEngine ConfigDefault []).Manager.Minimization
        [] true [] true id).map ImportOutcome.minimizeInvoked = Except.ok true :=
  ⟨rfl, rfl⟩

/-- C3 amended: the import copy loop only ever adds files — every file
present before an import is still present with the same bytes afterwards
and the file count never decreases — and minimization is the sole
operation that can change the corpus beyond those additions; it is
invoked exactly when the manager's strategy is CoverageMinimization,
which NewFuzzEngine hard-codes, so every engine-driven import triggers
minimization rather than it being opt-in. -/
theorem c3_corpus_monotone (dst : FileMap) (src : List DirEntry) (name : String)
    (c : List Nat) (hc : lookupAssoc dst name = some c) :
    lookupAssoc (importEntries dst src) name = some c ∧
    dst.length ≤ (importEntries dst src).length ∧
    (∀ (s : MinimizationStrategy) (d : FileMap) (entries : List DirEntry)
        (mok : Bool) (eff : FileMap → FileMap) (out : ImportOutcome),
      ImportNewCorpusEntries s d true entries mok eff = Except.ok out →
      (out.minimizeInvoked = true ↔ s = MinimizationStrategy.CoverageMinimization) ∧
      (out.minimizeInvoked = false → out.files = importEntries d entries)) ∧
    (∀ (cfg : Config) (ts : List Target),
      (NewFuzzEngine cfg ts).Manager.Minimization
        = MinimizationStrategy.CoverageMinimization) := by
  refine ⟨lookup_importEntries_preserved src dst name c hc,
    length_le_importEntries src dst, ?_, fun cfg ts => rfl⟩
  intro s d entries mok eff out himp
  cases s <;> cases mok <;>
    simp_all [ImportNewCorpusEntries] <;>
    simp [← himp]

/-- Witness for the amended C3 at concrete inputs. -/
theorem c3_corpus_monotone_witness :
    lookupAssoc (importEntries [("k", [1])] []) "k" = some [1] ∧
    ([("k", [1])] : FileMap).length ≤ (importEntries [("k", [1])] []).length ∧
    (∀ (s : MinimizationStrategy) (d : FileMap) (entries : List DirEntry)
        (mok : Bool) (eff : FileMap → FileMap) (out : ImportOutcome),
      ImportNewCorpusEntries s d true entries mok eff = Except.ok out →
      (out.minimizeInvoked = true ↔ s = MinimizationStrategy.CoverageMinimization) ∧
      (out.minimizeInvoked = false → out.files = importEntries d entries)) ∧
    (∀ (cfg : Config) (ts : List Target),
      (NewFuzzEngine cfg ts).Manager.Minimization
        = MinimizationStrategy.CoverageMinimization) :=
  c3_corpus_monotone [("k", [1])] [] "k" [1] rfl

end GoFuzz
